import Mathlib

set_option maxRecDepth 8000

/-!
Verification of the product-context extraction and turn-handling pipeline of
the chatbot backend (src/backend/main.py).

The Python code is embedded shallowly:

* `extract_specification_groups_from_text` (main.py lines 57-99) becomes a
  Lean function on `String` built from three index-based loops that mirror
  the source exactly: `findFrom` models Python `text.find(pat, start)`,
  `scanClose` models the inner bracket-counting `while` loop, and
  `extractLoopF` models the outer `while True` loop.  Each loop is written
  with an explicit fuel argument (structural recursion, so every definition
  evaluates by `decide`/`rfl`); the wrappers instantiate the fuel with a
  bound that provably suffices, and congruence lemmas recover the exact
  unfolding equations of the loops.
* the `/message` handler `send_message` (lines 319-420) becomes
  `augmentStep` (the product-info augmentation and fallback-file tiers,
  lines 329-345), `displayOf` (the echo/gateway display selection, lines
  346-369) and `send_message` (the response envelope, lines 371-420), with
  the module-level mutable `product_info` variable threaded as explicit
  `Option String` state (`none` models the initial Python `None`).
* the `/product` handler `product_hook` (lines 266-317) becomes
  `product_hook`, with the result of `json.loads(...).get("responseBody")`
  modelled as an `Option String` argument.
* the gateway call (`OpenAIClient().chat_completion(...)`, lines 348-369)
  is an opaque external collaborator; its three observable outcomes are
  the inductive `GatewayOutcome`.

Machine integers do not appear; Python `str.find` indices become `Nat` and
the bracket counter (a Python `int` that is compared with `0` after a
decrement) becomes `Int`.
-/

/-- The exact search marker of main.py line 65: the text
`"specificationGroups":[` followed by an opening curly brace. -/
def markerL : List Char := ("\"specificationGroups\":[\x7b").data

/-- The first 22 characters of `markerL`: the quoted key and the colon,
everything before the `[` that opens the array. -/
def specKey : List Char := ("\"specificationGroups\":").data

/-- Single-character pattern `[`, the argument of `text.find('[', idx)` on
main.py line 74. -/
def lbL : List Char := ['[']

/-- Fuel-indexed body of `findFrom`.  One unit of fuel per candidate
starting index. -/
def findFromF : Nat → List Char → List Char → Nat → Option Nat
  | 0, _, _, _ => none
  | fuel+1, t, pat, start =>
    if t.length ≤ start then none
    else if pat.isPrefixOf (t.drop start) = true then some start
    else findFromF fuel t pat (start+1)

/-- Embeds Python `t.find(pat, start)` for a non-empty pattern: the least
index `≥ start` at which `pat` occurs in `t`, with `none` in place of
Python's `-1`. -/
def findFrom (t pat : List Char) (start : Nat) : Option Nat :=
  findFromF (t.length + 1 - start) t pat start

/-- Fuel-indexed body of `scanClose`.  One unit of fuel per scanned
character. -/
def scanCloseF : Nat → List Char → Nat → Int → Option Nat
  | 0, _, _, _ => none
  | fuel+1, t, i, c =>
    match t[i]? with
    | none => none
    | some ch =>
      if ch = '[' then scanCloseF fuel t (i+1) (c+1)
      else if ch = ']' then
        (if c - 1 = 0 then some i else scanCloseF fuel t (i+1) (c-1))
      else scanCloseF fuel t (i+1) c

/-- Embeds the inner `while i < n` loop of main.py lines 83-94: starting at
index `i` with bracket counter `c`, scan forward incrementing the counter
on `[` and decrementing on `]`; return the index of the `]` at which the
counter reaches zero, or `none` if the end of the text is reached first
(the `while ... else` branch of line 95). -/
def scanClose (t : List Char) (i : Nat) (c : Int) : Option Nat :=
  scanCloseF (t.length + 1 - i) t i c

/-- Unfolding equation for `findFrom`, matching one iteration of the
search. -/
lemma findFrom_eq (t pat : List Char) (start : Nat) :
    findFrom t pat start =
      if t.length ≤ start then none
      else if pat.isPrefixOf (t.drop start) = true then some start
      else findFrom t pat (start+1) := by
  unfold findFrom
  rcases Nat.lt_or_ge start t.length with h | h
  · have h1 : t.length + 1 - start = (t.length - start) + 1 := by omega
    have h2 : t.length + 1 - (start + 1) = t.length - start := by omega
    rw [h1, h2]
    simp only [findFromF]
  · have h01 : t.length + 1 - start = 0 ∨ t.length + 1 - start = 1 := by omega
    rcases h01 with h1 | h1 <;> rw [h1] <;> simp [findFromF, h]

/-- Characterisation of `isPrefixOf` on characters as an existential
decomposition. -/
lemma isPrefixOf_iff_append (l₁ l₂ : List Char) :
    l₁.isPrefixOf l₂ = true ↔ ∃ u, l₁ ++ u = l₂ := by
  induction l₁ generalizing l₂ with
  | nil => simp [List.isPrefixOf]
  | cons a as ih =>
    cases l₂ with
    | nil =>
      simp [List.isPrefixOf]
    | cons b bs =>
      simp only [List.isPrefixOf, Bool.and_eq_true, beq_iff_eq, ih, List.cons_append,
        List.cons.injEq]
      constructor
      · rintro ⟨rfl, u, rfl⟩
        exact ⟨u, rfl, rfl⟩
      · rintro ⟨u, rfl, rfl⟩
        exact ⟨rfl, u, rfl⟩

/-- A non-empty pattern occurring at `i` fits inside the text. -/
lemma occ_bounds {pat t : List Char} {i : Nat} (hp : pat ≠ [])
    (h : pat.isPrefixOf (t.drop i) = true) : i + pat.length ≤ t.length := by
  obtain ⟨u, hu⟩ := (isPrefixOf_iff_append _ _).1 h
  have hlen := congrArg List.length hu
  simp only [List.length_append, List.length_drop] at hlen
  have hpos : 1 ≤ pat.length := by
    cases pat with
    | nil => exact absurd rfl hp
    | cons a as => simp
  omega

/-- Characterisation of `findFrom` as the least occurrence at or after
`start`. -/
lemma findFrom_iff (t pat : List Char) (hp : pat ≠ []) :
    ∀ start i, (findFrom t pat start = some i ↔
      (start ≤ i ∧ pat.isPrefixOf (t.drop i) = true ∧
        ∀ q, start ≤ q → q < i → pat.isPrefixOf (t.drop q) = false)) := by
  have main : ∀ d start, t.length + 1 - start ≤ d → ∀ i,
      (findFrom t pat start = some i ↔
        (start ≤ i ∧ pat.isPrefixOf (t.drop i) = true ∧
          ∀ q, start ≤ q → q < i → pat.isPrefixOf (t.drop q) = false)) := by
    intro d
    induction d with
    | zero =>
      intro start hle i
      have hnone : findFrom t pat start = none := by
        rw [findFrom_eq, if_pos (by omega)]
      rw [hnone]
      constructor
      · intro h; cases h
      · rintro ⟨h1, h2, _⟩
        exfalso
        have hb := occ_bounds hp h2
        have hpos : 1 ≤ pat.length := by
          cases pat with
          | nil => exact absurd rfl hp
          | cons a as => simp
        omega
    | succ d ih =>
      intro start hle i
      by_cases hs : t.length ≤ start
      · have hnone : findFrom t pat start = none := by
          rw [findFrom_eq, if_pos hs]
        rw [hnone]
        constructor
        · intro h; cases h
        · rintro ⟨h1, h2, _⟩
          exfalso
          have hb := occ_bounds hp h2
          have hpos : 1 ≤ pat.length := by
            cases pat with
            | nil => exact absurd rfl hp
            | cons a as => simp
          omega
      · rw [findFrom_eq, if_neg hs]
        by_cases hpre : pat.isPrefixOf (t.drop start) = true
        · rw [if_pos hpre]
          constructor
          · intro h
            injection h with h
            subst h
            exact ⟨Nat.le_refl _, hpre, fun q hq1 hq2 => absurd (Nat.lt_of_le_of_lt hq1 hq2)
              (Nat.lt_irrefl _)⟩
          · rintro ⟨h1, h2, h3⟩
            rcases Nat.eq_or_lt_of_le h1 with rfl | hlt
            · rfl
            · exact absurd hpre (by rw [h3 start (Nat.le_refl _) hlt]; simp)
        · rw [if_neg hpre]
          have hpre' : pat.isPrefixOf (t.drop start) = false := by
            rcases hb : pat.isPrefixOf (t.drop start) with _ | _
            · rfl
            · exact absurd hb hpre
          rw [ih (start + 1) (by omega) i]
          constructor
          · rintro ⟨h1, h2, h3⟩
            refine ⟨by omega, h2, ?_⟩
            intro q hq1 hq2
            rcases Nat.eq_or_lt_of_le hq1 with rfl | hlt
            · exact hpre'
            · exact h3 q hlt hq2
          · rintro ⟨h1, h2, h3⟩
            have hne : start ≠ i := by
              rintro rfl
              rw [hpre'] at h2
              cases h2
            refine ⟨by omega, h2, ?_⟩
            intro q hq1 hq2
            exact h3 q (by omega) hq2
  intro start i
  exact main (t.length + 1 - start) start (Nat.le_refl _) i

/-- Basic facts about a successful bracket scan: the closing index lies at
or after the start, inside the text, and holds a `]`. -/
lemma scanCloseF_some : ∀ (f : Nat) (t : List Char) (i : Nat) (c : Int) (j : Nat),
    scanCloseF f t i c = some j → i ≤ j ∧ j < t.length ∧ t[j]? = some ']' := by
  intro f
  induction f with
  | zero => intro t i c j h; cases h
  | succ f ih =>
    intro t i c j h
    simp only [scanCloseF] at h
    rcases hch : t[i]? with _ | ch <;> simp only [hch] at h
    · cases h
    · have hilen : i < t.length := by
        by_contra hcon
        rw [List.getElem?_eq_none (by omega)] at hch
        cases hch
      by_cases h1 : ch = '['
      · rw [if_pos h1] at h
        have := ih t (i+1) (c+1) j h
        exact ⟨by omega, this.2⟩
      · rw [if_neg h1] at h
        by_cases h2 : ch = ']'
        · rw [if_pos h2] at h
          by_cases h3 : c - 1 = 0
          · rw [if_pos h3] at h
            injection h with h
            subst h
            exact ⟨Nat.le_refl _, hilen, by rw [hch, h2]⟩
          · rw [if_neg h3] at h
            have := ih t (i+1) (c-1) j h
            exact ⟨by omega, this.2⟩
        · rw [if_neg h2] at h
          have := ih t (i+1) c j h
          exact ⟨by omega, this.2⟩

lemma scanClose_some (t : List Char) (i : Nat) (c : Int) (j : Nat)
    (h : scanClose t i c = some j) : i ≤ j ∧ j < t.length ∧ t[j]? = some ']' :=
  scanCloseF_some _ t i c j h

/-- The bracket scan only looks at the text from its start index on, so a
common prefix can be split off. -/
lemma scanCloseF_shift (pre rest : List Char) :
    ∀ (f : Nat) (i : Nat) (c : Int),
      scanCloseF f (pre ++ rest) (pre.length + i) c =
        (scanCloseF f rest i c).map (fun x => pre.length + x) := by
  intro f
  induction f with
  | zero => intro i c; rfl
  | succ f ih =>
    intro i c
    simp only [scanCloseF]
    have hch : (pre ++ rest)[pre.length + i]? = rest[i]? := by
      rw [List.getElem?_append_right (by omega)]
      congr 1
      omega
    rw [hch]
    rcases hr : rest[i]? with _ | ch <;> simp only [hr]
    · rfl
    · by_cases h1 : ch = '['
      · rw [if_pos h1, if_pos h1]
        have e : pre.length + i + 1 = pre.length + (i + 1) := by omega
        rw [e, ih]
      · rw [if_neg h1, if_neg h1]
        by_cases h2 : ch = ']'
        · rw [if_pos h2, if_pos h2]
          by_cases h3 : c - 1 = 0
          · rw [if_pos h3, if_pos h3]
            rfl
          · rw [if_neg h3, if_neg h3]
            have e : pre.length + i + 1 = pre.length + (i + 1) := by omega
            rw [e, ih]
        · rw [if_neg h2, if_neg h2]
          have e : pre.length + i + 1 = pre.length + (i + 1) := by omega
          rw [e, ih]

lemma scanClose_shift (pre rest : List Char) (i : Nat) (c : Int) :
    scanClose (pre ++ rest) (pre.length + i) c =
      (scanClose rest i c).map (fun x => pre.length + x) := by
  unfold scanClose
  have e : (pre ++ rest).length + 1 - (pre.length + i) = rest.length + 1 - i := by
    simp only [List.length_append]
    omega
  rw [e]
  exact scanCloseF_shift pre rest _ i c

/-- A scan that closes inside `arr` is unaffected by appending more text. -/
lemma scanCloseF_append (arr post : List Char) :
    ∀ (f f' : Nat) (i : Nat) (c : Int) (j : Nat), f ≤ f' →
      scanCloseF f arr i c = some j → scanCloseF f' (arr ++ post) i c = some j := by
  intro f
  induction f with
  | zero => intro f' i c j _ h; cases h
  | succ f ih =>
    intro f' i c j hff h
    obtain ⟨f'', rfl⟩ : ∃ f'', f' = f'' + 1 := ⟨f' - 1, by omega⟩
    simp only [scanCloseF] at h ⊢
    rcases hch : arr[i]? with _ | ch <;> simp only [hch] at h
    · cases h
    · have hilen : i < arr.length := by
        by_contra hcon
        rw [List.getElem?_eq_none (by omega)] at hch
        cases hch
      rw [List.getElem?_append_left hilen, hch]
      simp only []
      by_cases h1 : ch = '['
      · rw [if_pos h1] at h ⊢
        exact ih f'' (i+1) (c+1) j (by omega) h
      · rw [if_neg h1] at h ⊢
        by_cases h2 : ch = ']'
        · rw [if_pos h2] at h ⊢
          by_cases h3 : c - 1 = 0
          · rw [if_pos h3] at h ⊢
            exact h
          · rw [if_neg h3] at h ⊢
            exact ih f'' (i+1) (c-1) j (by omega) h
        · rw [if_neg h2] at h ⊢
          exact ih f'' (i+1) c j (by omega) h

lemma scanClose_append (arr post : List Char) (i : Nat) (c : Int) (j : Nat)
    (h : scanClose arr i c = some j) : scanClose (arr ++ post) i c = some j := by
  unfold scanClose at h ⊢
  exact scanCloseF_append arr post _ _ i c j
    (by simp only [List.length_append]; omega) h

/-- Fuel-indexed body of the outer `while True` loop of main.py lines
68-97.  One unit of fuel per iteration; each iteration strictly advances
the scan cursor `start`. -/
def extractLoopF : Nat → List Char → Nat → List (List Char)
  | 0, _, _ => []
  | fuel+1, t, start =>
    match findFrom t markerL start with
    | none => []
    | some idx =>
      match findFrom t lbL idx with
      | none => extractLoopF fuel t (idx + markerL.length)
      | some arrayStart =>
        match scanClose t arrayStart 0 with
        | none => []
        | some i =>
          (t.drop arrayStart).take (i + 1 - arrayStart) :: extractLoopF fuel t (i + 1)

/-- The outer loop started at cursor `start`; `t.length + 1 - start` fuel
always suffices because the cursor strictly increases and never needs to
pass `t.length`. -/
def extractAt (t : List Char) (start : Nat) : List (List Char) :=
  extractLoopF (t.length + 1 - start) t start

/-- Embeds `extract_specification_groups_from_text` of main.py lines
57-99: all captured array substrings, in scan order. -/
def extract_specification_groups_from_text (text : String) : List String :=
  (extractAt text.data 0).map (fun cs => String.mk cs)

/-- Any sufficiently large fuel computes the same outer-loop result. -/
lemma extractLoopF_congr : ∀ (f1 f2 : Nat) (t : List Char) (start : Nat),
    t.length + 1 - start ≤ f1 → t.length + 1 - start ≤ f2 →
    extractLoopF f1 t start = extractLoopF f2 t start := by
  intro f1
  induction f1 with
  | zero =>
    intro f2 t start h1 h2
    have hn : findFrom t markerL start = none := by
      rw [findFrom_eq, if_pos (by omega)]
    cases f2 with
    | zero => rfl
    | succ f2 => simp only [extractLoopF, hn]
  | succ f1 ih =>
    intro f2 t start h1 h2
    by_cases hs : t.length + 1 ≤ start
    · have hn : findFrom t markerL start = none := by
        rw [findFrom_eq, if_pos (by omega)]
      cases f2 with
      | zero => simp only [extractLoopF, hn]
      | succ f2 => simp only [extractLoopF, hn]
    · obtain ⟨f2', rfl⟩ : ∃ f2', f2 = f2' + 1 := ⟨f2 - 1, by omega⟩
      simp only [extractLoopF]
      rcases hf : findFrom t markerL start with _ | idx <;> simp only [hf]
      have p1 := (findFrom_iff t markerL (by decide) start idx).1 hf
      have hb1 : idx + markerL.length ≤ t.length := occ_bounds (by decide) p1.2.1
      have hm : markerL.length = 24 := by decide
      rcases hb : findFrom t lbL idx with _ | arrayStart <;> simp only [hb]
      · exact ih f2' t (idx + markerL.length) (by omega) (by omega)
      · have p2 := (findFrom_iff t lbL (by decide) idx arrayStart).1 hb
        rcases hscan : scanClose t arrayStart 0 with _ | i <;> simp only [hscan]
        obtain ⟨q1, q2, _⟩ := scanClose_some t arrayStart 0 i hscan
        rw [ih f2' t (i + 1) (by omega) (by omega)]

/-- Unfolding: no further marker occurrence, the loop exits (line 71). -/
lemma extractAt_none {t : List Char} {start : Nat}
    (h : findFrom t markerL start = none) : extractAt t start = [] := by
  unfold extractAt
  rcases e : t.length + 1 - start with _ | f
  · rfl
  · simp only [extractLoopF, h]

/-- Unfolding: a marker occurrence whose bracket scan runs off the end of
the text stops the whole loop (lines 95-97). -/
lemma extractAt_fail {t : List Char} {start idx arrayStart : Nat}
    (h1 : findFrom t markerL start = some idx)
    (h2 : findFrom t lbL idx = some arrayStart)
    (h3 : scanClose t arrayStart 0 = none) : extractAt t start = [] := by
  have p1 := (findFrom_iff t markerL (by decide) start idx).1 h1
  have hb1 : idx + markerL.length ≤ t.length := occ_bounds (by decide) p1.2.1
  have hm : markerL.length = 24 := by decide
  unfold extractAt
  have e : t.length + 1 - start = (t.length - start) + 1 := by omega
  rw [e]
  simp only [extractLoopF, h1, h2, h3]

/-- Unfolding: a successful capture appends the array substring and
restarts just past it (lines 89-93). -/
lemma extractAt_capture {t : List Char} {start idx arrayStart i : Nat}
    (h1 : findFrom t markerL start = some idx)
    (h2 : findFrom t lbL idx = some arrayStart)
    (h3 : scanClose t arrayStart 0 = some i) :
    extractAt t start = (t.drop arrayStart).take (i + 1 - arrayStart) :: extractAt t (i + 1) := by
  have p1 := (findFrom_iff t markerL (by decide) start idx).1 h1
  have hb1 : idx + markerL.length ≤ t.length := occ_bounds (by decide) p1.2.1
  have hm : markerL.length = 24 := by decide
  have p2 := (findFrom_iff t lbL (by decide) idx arrayStart).1 h2
  obtain ⟨q1, q2, _⟩ := scanClose_some t arrayStart 0 i h3
  unfold extractAt
  have e : t.length + 1 - start = (t.length - start) + 1 := by omega
  rw [e]
  simp only [extractLoopF, h1, h2, h3]
  rw [extractLoopF_congr (t.length - start) (t.length + 1 - (i + 1)) t (i + 1)
    (by omega) (by omega)]

/-- An occurrence of the search marker at position `p` of the text. -/
def IsOcc (t : List Char) (p : Nat) : Prop := markerL.isPrefixOf (t.drop p) = true

instance instDecidableIsOcc (t : List Char) (p : Nat) : Decidable (IsOcc t p) := by
  unfold IsOcc
  infer_instance

/-- None of the first 22 marker characters is `[`. -/
lemma markerL_no_bracket : ∀ d, d < 22 → markerL[d]? ≠ some '[' := by decide

/-- Past the keyed part of a marker occurrence the text continues with the
array opener. -/
lemma drop_occ {t : List Char} {p : Nat} (h : IsOcc t p) :
    ∃ u, t.drop (p + 22) = '[' :: '\x7b' :: u := by
  obtain ⟨u, hu⟩ := (isPrefixOf_iff_append _ _).1 h
  refine ⟨u, ?_⟩
  have h1 : t.drop (p + 22) = List.drop 22 (t.drop p) := by
    rw [List.drop_drop]
  rw [h1, ← hu, List.drop_append_of_le_length (by decide)]
  have h2 : List.drop 22 markerL = ['[', '\x7b'] := by decide
  rw [h2]
  rfl

/-- At a marker occurrence, `text.find('[', idx)` of main.py line 74
returns exactly `idx + 22`: the key and colon contain no `[`, and the next
marker character is `[`. -/
lemma findFrom_bracket {t : List Char} {p : Nat} (h : IsOcc t p) :
    findFrom t lbL p = some (p + 22) := by
  obtain ⟨u, hu⟩ := (isPrefixOf_iff_append _ _).1 h
  apply (findFrom_iff t lbL (by decide) p (p + 22)).2
  obtain ⟨v, hv⟩ := drop_occ h
  refine ⟨by omega, ?_, ?_⟩
  · rw [hv]
    simp [List.isPrefixOf, lbL]
  · intro q hq1 hq2
    have hqd : q - p < 22 := by omega
    have hm24 : markerL.length = 24 := by decide
    have hdropq : t.drop q = List.drop (q - p) markerL ++ u := by
      have h1 : t.drop q = List.drop (q - p) (t.drop p) := by
        rw [List.drop_drop]
        congr 1
        omega
      rw [h1, ← hu, List.drop_append_of_le_length (by omega)]
    rcases hb : lbL.isPrefixOf (t.drop q) with _ | _
    · rfl
    · exfalso
      rw [hdropq] at hb
      obtain ⟨w, hw⟩ := (isPrefixOf_iff_append _ _).1 hb
      have hlen0 : 0 < (List.drop (q - p) markerL).length := by
        rw [List.length_drop]
        omega
      have hgot : (List.drop (q - p) markerL ++ u)[0]? = markerL[q - p]? := by
        rw [List.getElem?_append_left hlen0, List.getElem?_drop, Nat.add_zero]
      rw [← hw] at hgot
      have hgot2 : markerL[q - p]? = some '[' := by
        rw [← hgot]
        simp [lbL]
      exact markerL_no_bracket (q - p) hqd hgot2

/-- Along a chain of captures, every later occurrence starts strictly
after the closing bracket of the first capture. -/
lemma chain_bound : ∀ (rest : List (Nat × Nat)) (a : Nat × Nat),
    List.Chain' (fun x y : Nat × Nat => x.2 < y.1) (a :: rest) →
    (∀ x ∈ rest, x.1 + 22 ≤ x.2) →
    ∀ x ∈ rest, a.2 < x.1 := by
  intro rest
  induction rest with
  | nil =>
    intro a _ _ x hx
    cases hx
  | cons y ys ih =>
    intro a hc hm x hx
    rw [List.chain'_cons] at hc
    rcases List.mem_cons.1 hx with rfl | hx2
    · exact hc.1
    · have hy := hm y (List.mem_cons_self _ _)
      have h2 := ih y hc.2 (fun z hz => hm z (List.mem_cons_of_mem _ hz)) x hx2
      omega

/-- Main loop invariant: if, from the cursor on, the marker occurrences
are exactly the listed positions (each with its closing-bracket index from
a successful scan, pairwise non-overlapping), optionally followed by one
final occurrence whose scan reaches the end of the text, then the loop
returns exactly the listed captures in order. -/
lemma extractAt_main (t : List Char) :
    ∀ (pjs : List (Nat × Nat)) (start : Nat) (tl : Option Nat),
    (∀ pj ∈ pjs, start ≤ pj.1 ∧ scanClose t (pj.1 + 22) 0 = some pj.2) →
    List.Chain' (fun a b : Nat × Nat => a.2 < b.1) pjs →
    (∀ q ∈ tl, start ≤ q ∧ IsOcc t q ∧ scanClose t (q + 22) 0 = none ∧
      ∀ pj ∈ pjs, pj.2 < q) →
    (∀ p, start ≤ p → (∀ q ∈ tl, p ≤ q) →
      (IsOcc t p ↔ p ∈ pjs.map Prod.fst ∨ p ∈ tl)) →
    extractAt t start =
      pjs.map (fun pj => (t.drop (pj.1 + 22)).take (pj.2 + 1 - (pj.1 + 22))) := by
  intro pjs
  induction pjs with
  | nil =>
    intro start tl hmem hchain htl hiff
    cases tl with
    | none =>
      apply extractAt_none
      rcases hf : findFrom t markerL start with _ | idx
      · rfl
      · exfalso
        have p1 := (findFrom_iff t markerL (by decide) start idx).1 hf
        have h2 := (hiff idx p1.1 (by intro q hq; cases hq)).1 p1.2.1
        rcases h2 with h2 | h2
        · simp at h2
        · cases h2
    | some q =>
      obtain ⟨hsq, hoccq, hscanq, _⟩ := htl q rfl
      have hf : findFrom t markerL start = some q := by
        apply (findFrom_iff t markerL (by decide) start q).2
        refine ⟨hsq, hoccq, ?_⟩
        intro q' h1 h2
        rcases hb : markerL.isPrefixOf (t.drop q') with _ | _
        · rfl
        · exfalso
          have h3 := (hiff q' h1 (by
            intro z hz
            rw [Option.mem_def] at hz
            injection hz with hz
            omega)).1 hb
          rcases h3 with h3 | h3
          · simp at h3
          · rw [Option.mem_def] at h3
            injection h3 with h3
            omega
      exact extractAt_fail hf (findFrom_bracket hoccq) hscanq
  | cons pj rest ih =>
    intro start tl hmem hchain htl hiff
    obtain ⟨p, j⟩ := pj
    obtain ⟨hsp, hscanp⟩ := hmem (p, j) (List.mem_cons_self _ _)
    obtain ⟨hpj, hjlen, hjch⟩ := scanClose_some t (p + 22) 0 j hscanp
    have hrest22 : ∀ x ∈ rest, x.1 + 22 ≤ x.2 := fun x hx =>
      (scanClose_some t _ 0 _ (hmem x (List.mem_cons_of_mem _ hx)).2).1
    have hrestgt : ∀ x ∈ rest, j < x.1 := chain_bound rest (p, j) hchain hrest22
    have hoccp : IsOcc t p := by
      apply (hiff p hsp ?_).2
      · left
        simp
      · intro q hq
        have h4 := (htl q hq).2.2.2 (p, j) (List.mem_cons_self _ _)
        simp only at h4
        omega
    have hf : findFrom t markerL start = some p := by
      apply (findFrom_iff t markerL (by decide) start p).2
      refine ⟨hsp, hoccp, ?_⟩
      intro q' h1 h2
      rcases hb : markerL.isPrefixOf (t.drop q') with _ | _
      · rfl
      · exfalso
        have hql : ∀ z ∈ tl, q' ≤ z := by
          intro z hz
          have h4 := (htl z hz).2.2.2 (p, j) (List.mem_cons_self _ _)
          simp only at h4
          omega
        have h3 := (hiff q' h1 hql).1 hb
        rcases h3 with h3 | h3
        · rw [List.map_cons, List.mem_cons] at h3
          rcases h3 with h3 | h3
          · simp only at h3
            omega
          · rw [List.mem_map] at h3
            obtain ⟨x, hx, rfl⟩ := h3
            have h5 := hrestgt x hx
            have h6 := hrest22 x hx
            omega
        · rw [Option.mem_def] at h3
          rcases tl with _ | z
          · cases h3
          · injection h3 with h3
            have h4 := (htl q' (by rw [Option.mem_def, h3])).2.2.2 (p, j)
              (List.mem_cons_self _ _)
            simp only at h4
            omega
    rw [extractAt_capture hf (findFrom_bracket hoccp) hscanp, List.map_cons]
    congr 1
    apply ih (j + 1) tl
    · intro x hx
      refine ⟨?_, (hmem x (List.mem_cons_of_mem _ hx)).2⟩
      have h5 := hrestgt x hx
      omega
    · exact (List.chain'_cons'.1 hchain).2
    · intro q hq
      obtain ⟨_, ho, hs, hall⟩ := htl q hq
      refine ⟨?_, ho, hs, fun x hx => hall x (List.mem_cons_of_mem _ hx)⟩
      have h4 := hall (p, j) (List.mem_cons_self _ _)
      simp only at h4
      omega
    · intro q hq1 hq2
      have hq0 : start ≤ q := by omega
      have h5 := hiff q hq0 hq2
      rw [List.map_cons, List.mem_cons] at h5
      constructor
      · intro ho
        rcases h5.1 ho with (h6 | h6) | h6
        · simp only at h6
          omega
        · exact Or.inl h6
        · exact Or.inr h6
      · intro h6
        apply h5.2
        rcases h6 with h6 | h6
        · exact Or.inl (Or.inr h6)
        · exact Or.inr h6

/-- A marker occurrence needs 24 characters of room. -/
lemma occ_le_length {t : List Char} {p : Nat} (h : IsOcc t p) : p + 24 ≤ t.length := by
  have hb := occ_bounds (show markerL ≠ [] by decide) h
  have hm : markerL.length = 24 := by decide
  omega

/-- A successful capture starts with its `[` and ends with the `]` at
which the depth counter returned to zero. -/
lemma capture_ends {t : List Char} {p j : Nat} (hocc : IsOcc t p)
    (hscan : scanClose t (p + 22) 0 = some j) :
    ((t.drop (p + 22)).take (j + 1 - (p + 22))).head? = some '[' ∧
    ((t.drop (p + 22)).take (j + 1 - (p + 22))).getLast? = some ']' := by
  obtain ⟨hle, hlt, hch⟩ := scanClose_some t (p + 22) 0 j hscan
  obtain ⟨u, hu⟩ := drop_occ hocc
  constructor
  · rw [hu]
    obtain ⟨k, hk⟩ : ∃ k, j + 1 - (p + 22) = k + 1 := ⟨j - (p + 22), by omega⟩
    rw [hk, List.take_succ_cons]
    rfl
  · have hmlen : j + 1 - (p + 22) ≤ (t.drop (p + 22)).length := by
      rw [List.length_drop]
      omega
    have hrlen : ((t.drop (p + 22)).take (j + 1 - (p + 22))).length = j + 1 - (p + 22) :=
      List.length_take_of_le hmlen
    rw [List.getLast?_eq_getElem?, hrlen, List.getElem?_take, if_pos (by omega),
      List.getElem?_drop]
    have e : p + 22 + (j + 1 - (p + 22) - 1) = j := by omega
    rw [e]
    exact hch

/-- Claim C2 (amended): if the marker occurrences of the text are exactly
the listed positions, each with a successful (balanced) bracket scan
closing at the paired index, and each occurrence after the first starts
only past the closing bracket of the previous occurrence's array, then
`extract` returns exactly one string per occurrence: the verbatim
substring from the occurrence's `[` through the `]` at which the
bracket-depth counter returns to zero. -/
theorem extract_wellformed_occurrences (text : String) (pjs : List (Nat × Nat))
    (hcap : ∀ pj ∈ pjs, scanClose text.data (pj.1 + 22) 0 = some pj.2)
    (hchain : List.Chain' (fun a b : Nat × Nat => a.2 < b.1) pjs)
    (hocc : ∀ p, p ≤ text.data.length → (IsOcc text.data p ↔ p ∈ pjs.map Prod.fst)) :
    (extract_specification_groups_from_text text).length = pjs.length ∧
    extract_specification_groups_from_text text =
      pjs.map (fun pj =>
        String.mk ((text.data.drop (pj.1 + 22)).take (pj.2 + 1 - (pj.1 + 22)))) ∧
    (∀ r ∈ extract_specification_groups_from_text text,
      r.data.head? = some '[' ∧ r.data.getLast? = some ']') := by
  have hocc' : ∀ p, p ∈ pjs.map Prod.fst → IsOcc text.data p := by
    intro p hp
    rw [List.mem_map] at hp
    obtain ⟨x, hx, rfl⟩ := hp
    obtain ⟨h1, h2, _⟩ := scanClose_some _ _ _ _ (hcap x hx)
    exact (hocc x.1 (by omega)).2 (by rw [List.mem_map]; exact ⟨x, hx, rfl⟩)
  have hmain : extractAt text.data 0 =
      pjs.map (fun pj => (text.data.drop (pj.1 + 22)).take (pj.2 + 1 - (pj.1 + 22))) := by
    apply extractAt_main text.data pjs 0 none
    · intro pj h
      exact ⟨Nat.zero_le _, hcap pj h⟩
    · exact hchain
    · intro q hq
      cases hq
    · intro p _ _
      constructor
      · intro ho
        have hb := occ_le_length ho
        exact Or.inl ((hocc p (by omega)).1 ho)
      · rintro (h | h)
        · exact hocc' p h
        · cases h
  have hbody : extract_specification_groups_from_text text =
      pjs.map (fun pj =>
        String.mk ((text.data.drop (pj.1 + 22)).take (pj.2 + 1 - (pj.1 + 22)))) := by
    unfold extract_specification_groups_from_text
    rw [hmain, List.map_map]
    rfl
  refine ⟨?_, hbody, ?_⟩
  · rw [hbody, List.length_map]
  · intro r hr
    rw [hbody, List.mem_map] at hr
    obtain ⟨x, hx, rfl⟩ := hr
    have hox : IsOcc text.data x.1 := hocc' x.1 (by rw [List.mem_map]; exact ⟨x, hx, rfl⟩)
    exact capture_ends hox (hcap x hx)

/-- Text with two non-overlapping well-formed marker occurrences, used to
instantiate the amended claim C2. -/
def c2text : String :=
  "x\"specificationGroups\":[\x7b\x7d]y\"specificationGroups\":[\x7b\x7d]"

theorem extract_wellformed_occurrences_witness :
    (extract_specification_groups_from_text c2text).length =
      ([((1 : Nat), (26 : Nat)), (28, 53)]).length ∧
    extract_specification_groups_from_text c2text =
      ([((1 : Nat), (26 : Nat)), (28, 53)]).map (fun pj =>
        String.mk ((c2text.data.drop (pj.1 + 22)).take (pj.2 + 1 - (pj.1 + 22)))) ∧
    (∀ r ∈ extract_specification_groups_from_text c2text,
      r.data.head? = some '[' ∧ r.data.getLast? = some ']') :=
  extract_wellformed_occurrences c2text [(1, 26), (28, 53)] (by decide)
    (by rw [List.chain'_cons]; exact ⟨by omega, List.chain'_singleton _⟩) (by decide)

/-- Text with two well-formed marker occurrences where the second lies
inside the array captured for the first. -/
def nestedText : String :=
  "\"specificationGroups\":[\x7b\"specificationGroups\":[\x7b\x7d]\x7d]"

/-- Counterexample to claim C2 as stated: `nestedText` contains exactly
two well-formed occurrences of the marker (at positions 0 and 24), each
followed by a balanced bracket array (closing at 51 and 49 respectively),
yet `extract` returns one string, not two: the scan cursor jumps past the
first capture, skipping the nested second occurrence. -/
theorem extract_nested_two_occurrences :
    (∀ p, p ≤ nestedText.data.length →
      (IsOcc nestedText.data p ↔ (p = 0 ∨ p = 24))) ∧
    scanClose nestedText.data 22 0 = some 51 ∧
    scanClose nestedText.data 46 0 = some 49 ∧
    (extract_specification_groups_from_text nestedText).length = 1 := by
  refine ⟨by decide, by decide, by decide, by decide⟩

/-- Claim C3: if, after some well-formed captures, the next marker
occurrence's bracket scan reaches the end of the text with the counter
still positive, the loop stops and returns exactly the captures made
before that occurrence (possibly none); being a total function, it cannot
raise. -/
theorem extract_unclosed_stops (text : String) (pjs : List (Nat × Nat)) (q : Nat)
    (hcap : ∀ pj ∈ pjs, scanClose text.data (pj.1 + 22) 0 = some pj.2)
    (hchain : List.Chain' (fun a b : Nat × Nat => a.2 < b.1) pjs)
    (hqocc : IsOcc text.data q)
    (hqscan : scanClose text.data (q + 22) 0 = none)
    (hqgt : ∀ pj ∈ pjs, pj.2 < q)
    (hocc : ∀ p, p ≤ q → (IsOcc text.data p ↔ p ∈ pjs.map Prod.fst ∨ p = q)) :
    extract_specification_groups_from_text text =
      pjs.map (fun pj =>
        String.mk ((text.data.drop (pj.1 + 22)).take (pj.2 + 1 - (pj.1 + 22)))) := by
  have hmain : extractAt text.data 0 =
      pjs.map (fun pj => (text.data.drop (pj.1 + 22)).take (pj.2 + 1 - (pj.1 + 22))) := by
    apply extractAt_main text.data pjs 0 (some q)
    · intro pj h
      exact ⟨Nat.zero_le _, hcap pj h⟩
    · exact hchain
    · intro z hz
      rw [Option.mem_def] at hz
      injection hz with hz
      subst hz
      exact ⟨Nat.zero_le _, hqocc, hqscan, hqgt⟩
    · intro p _ hple
      have hpq : p ≤ q := hple q rfl
      rw [hocc p hpq]
      constructor
      · rintro (h | h)
        · exact Or.inl h
        · subst h
          exact Or.inr rfl
      · rintro (h | h)
        · exact Or.inl h
        · rw [Option.mem_def] at h
          injection h with h
          exact Or.inr h.symm
  unfold extract_specification_groups_from_text
  rw [hmain, List.map_map]
  rfl

/-- Text with a single marker occurrence whose array is never closed. -/
def c3text : String := "a\"specificationGroups\":[\x7b"

theorem extract_unclosed_stops_witness :
    extract_specification_groups_from_text c3text = [] := by
  simpa using extract_unclosed_stops c3text [] 1 (by decide) (by simp) (by decide)
    (by decide) (by simp) (by decide)

/-- The marker-plus-array fragment of the C8 scenario:
`"specificationGroups":[{"a":1},{"b":[1,2]}]`. -/
def c8core : String := "\"specificationGroups\":[\x7b\"a\":1\x7d,\x7b\"b\":[1,2]\x7d]"

/-- The array literal captured in the C8 scenario. -/
def c8arr : String := "[\x7b\"a\":1\x7d,\x7b\"b\":[1,2]\x7d]"

/-- Claim C8: any text made of garbage around the single marker occurrence
`"specificationGroups":[{"a":1},{"b":[1,2]}]` extracts to exactly one
string, the array literal itself; the nested inner array does not end the
capture early. -/
theorem extract_embedded_single (g1 g2 : List Char)
    (hocc : ∀ p, p ≤ (g1 ++ c8core.data ++ g2).length →
      (IsOcc (g1 ++ c8core.data ++ g2) p ↔ p = g1.length)) :
    extract_specification_groups_from_text (String.mk (g1 ++ c8core.data ++ g2)) =
      [c8arr] := by
  set t : List Char := g1 ++ c8core.data ++ g2 with ht
  have hsplit : t = (g1 ++ specKey) ++ (c8arr.data ++ g2) := by
    rw [ht]
    have hcd : c8core.data = specKey ++ c8arr.data := by decide
    rw [hcd]
    simp [List.append_assoc]
  have h22 : specKey.length = 22 := by decide
  have hlenpre : (g1 ++ specKey).length = g1.length + 22 := by
    rw [List.length_append]
    omega
  have harr : scanClose (c8arr.data ++ g2) 0 0 = some 20 :=
    scanClose_append c8arr.data g2 0 0 20 (by decide)
  have hscan : scanClose t (g1.length + 22) 0 = some (g1.length + 42) := by
    have h1 := scanClose_shift (g1 ++ specKey) (c8arr.data ++ g2) 0 0
    rw [harr, Nat.add_zero, hlenpre] at h1
    rw [hsplit, h1]
    simp
  have h43 : c8core.data.length = 43 := by decide
  have hlent : t.length = g1.length + 43 + g2.length := by
    rw [ht]
    simp only [List.length_append]
    omega
  have hmain : extractAt t 0 =
      [(t.drop (g1.length + 22)).take (g1.length + 42 + 1 - (g1.length + 22))] := by
    have h5 := extractAt_main t [(g1.length, g1.length + 42)] 0 none ?_ ?_ ?_ ?_
    · simpa using h5
    · intro pj hpj
      rw [List.mem_singleton] at hpj
      subst hpj
      exact ⟨Nat.zero_le _, hscan⟩
    · exact List.chain'_singleton _
    · intro q hq
      cases hq
    · intro p _ _
      constructor
      · intro ho
        have hb := occ_le_length ho
        left
        simp only [List.map_cons, List.map_nil, List.mem_singleton]
        exact (hocc p (by omega)).1 ho
      · rintro (h | h)
        · simp only [List.map_cons, List.map_nil, List.mem_singleton] at h
          subst h
          exact (hocc g1.length (by omega)).2 rfl
        · cases h
  have hdrop : t.drop (g1.length + 22) = c8arr.data ++ g2 := by
    rw [hsplit, ← hlenpre, List.drop_left]
  have h21 : c8arr.data.length = 21 := by decide
  have htake : (c8arr.data ++ g2).take 21 = c8arr.data := by
    rw [← h21, List.take_left]
  show (extractAt t 0).map (fun cs => String.mk cs) = [c8arr]
  rw [hmain]
  have e : g1.length + 42 + 1 - (g1.length + 22) = 21 := by omega
  rw [e, hdrop, htake]
  rfl

theorem extract_embedded_single_witness :
    extract_specification_groups_from_text
      (String.mk (("xy").data ++ c8core.data ++ ("z").data)) = [c8arr] :=
  extract_embedded_single (("xy").data) (("z").data) (by decide)

/-- Every string the outer loop captures begins with the `[` found for its
occurrence. -/
lemma extractLoopF_head : ∀ (f : Nat) (t : List Char) (start : Nat) (r : List Char),
    r ∈ extractLoopF f t start → r.head? = some '[' := by
  intro f
  induction f with
  | zero =>
    intro t start r h
    cases h
  | succ f ih =>
    intro t start r h
    simp only [extractLoopF] at h
    rcases hf : findFrom t markerL start with _ | idx <;> simp only [hf] at h
    · cases h
    · rcases hb : findFrom t lbL idx with _ | arrayStart <;> simp only [hb] at h
      · exact ih _ _ _ h
      · rcases hs : scanClose t arrayStart 0 with _ | i <;> simp only [hs] at h
        · cases h
        · rcases List.mem_cons.1 h with rfl | h2
          · have p2 := (findFrom_iff t lbL (by decide) idx arrayStart).1 hb
            obtain ⟨u, hu⟩ := (isPrefixOf_iff_append _ _).1 p2.2.1
            obtain ⟨q1, q2, _⟩ := scanClose_some t arrayStart 0 i hs
            have hd : t.drop arrayStart = '[' :: u := by
              rw [← hu]
              rfl
            rw [hd]
            obtain ⟨k, hk⟩ : ∃ k, i + 1 - arrayStart = k + 1 := ⟨i - arrayStart, by omega⟩
            rw [hk, List.take_succ_cons]
            rfl
          · exact ih _ _ _ h2

/-- Every extracted group starts with `[`; in particular none is empty. -/
lemma extract_head (s : String) :
    ∀ r ∈ extract_specification_groups_from_text s, r.data.head? = some '[' := by
  intro r hr
  unfold extract_specification_groups_from_text extractAt at hr
  rw [List.mem_map] at hr
  obtain ⟨cs, hcs, rfl⟩ := hr
  exact extractLoopF_head _ _ _ cs hcs

/-- The accumulator of `String.intercalate.go` only grows. -/
lemma intercalate_go_length (sep : String) :
    ∀ (l : List String) (acc : String),
      acc.length ≤ (String.intercalate.go acc sep l).length := by
  intro l
  induction l with
  | nil =>
    intro acc
    exact Nat.le_refl _
  | cons a as ih =>
    intro acc
    have h1 := ih (acc ++ sep ++ a)
    rw [String.length_append, String.length_append] at h1
    calc acc.length ≤ acc.length + sep.length + a.length := by omega
    _ ≤ _ := h1

/-- Joining a list whose first element is non-empty yields a non-empty
string. -/
lemma intercalate_ne_empty (sep a : String) (l : List String) (h : a ≠ "") :
    String.intercalate sep (a :: l) ≠ "" := by
  intro hcon
  have h1 : (String.intercalate sep (a :: l)).length = 0 := by
    rw [hcon]
    rfl
  have h2 := intercalate_go_length sep l a
  have h3 : String.intercalate sep (a :: l) = String.intercalate.go a sep l := rfl
  rw [h3] at h1
  have h4 : a.length = 0 := by omega
  have h5 : a.data.length = 0 := h4
  apply h
  have h6 : a.data = [] := List.length_eq_zero.1 h5
  exact String.ext_iff.2 (by rw [h6])

/-- Python truthiness of the `product_info` module variable (`None` or a
string): `None` and `""` are falsy. -/
def truthyStr : Option String → Bool
  | none => false
  | some s => !(s == "")

/-- The f-string of main.py lines 330 and 341:
`Question:\n{user_text} \n\n Product Info:\n{product_info}`. -/
def augmentWith (userText productInfo : String) : String :=
  ("Question:\n") ++ userText ++ (" \n\n Product Info:\n") ++ productInfo

/-- Embeds main.py lines 329-345: the augmentation tiers of the `/message`
handler.  Given the current `product_info` state, the user text, and the
result of reading `assets/test_product1.txt` (`none` models a read that
raises, absorbed by the `except` on line 344), returns the prompt passed
to the gateway together with the updated `product_info` state. -/
def augmentStep (st : Option String) (msg : String) (fb : Option String) :
    String × Option String :=
  if truthyStr st then (augmentWith msg (st.getD ("")), st)
  else
    match fb with
    | none => (msg, st)
    | some sample =>
      let groups := extract_specification_groups_from_text sample
      if groups.isEmpty then (msg, st)
      else
        (augmentWith msg (String.intercalate (",") groups),
          some (String.intercalate (",") groups))

/-- The three observable outcomes of the gateway call of main.py lines
348-365: the `OpenAIClient` constructor raises (configuration missing),
`chat_completion` raises (call failure), or a reply string is returned
(`ok ""` models a falsy reply: empty, or `None` content). -/
inductive GatewayOutcome where
  | configMissing
  | callRaised
  | ok (reply : String)

/-- The net value of the `display` variable across main.py lines 346-369:
`ECHO1 {user_text}` is the default, replaced by the stripped reply on a
truthy gateway result, or by `ECHO2 {user_text}` when the try-block
raises. -/
def displayOf : GatewayOutcome → String → String
  | GatewayOutcome.configMissing, userText => ("ECHO2 ") ++ userText
  | GatewayOutcome.callRaised, userText => ("ECHO2 ") ++ userText
  | GatewayOutcome.ok reply, userText =>
      if reply == "" then ("ECHO1 ") ++ userText else reply.trim

/-- The claim-relevant fields of an inbound `MessageRequest`:
`payload.message.message`, `payload.message.turnId`, and the metadata of
`payload.message.metadata` (`more` fields plus the two identifiers). -/
structure TurnInput where
  message : String
  turnId : Int
  correlationId : Option String
  conversationId : Option String
  membershipState : Option String
  logInState : Option String
  referer : Option String
  botSource : Option String
  prevUtterance : Option String
  requestedProductDataType : Option String
  existingUtterance : Option String
  intentName : Option String
  prevResponse : Option String

/-- The claim-relevant fields of the `/message` response envelope of
main.py lines 371-420: the generated or fallback display text plus the
passthrough metadata. -/
structure TurnResult where
  displayText : String
  turnId : Int
  membershipState : String
  logInState : String
  referer : String
  botSource : String
  prevUtterance : String
  requestedProductDataType : String
  existingUtterance : String
  intentName : String
  prevResponse : String
  correlationId : Option String
  conversationId : Option String
  genAI : Bool

/-- Python `x or default` for an optional string: `None` and `""` both
fall back to the default. -/
def orDefault (x : Option String) (d : String) : String :=
  match x with
  | none => d
  | some s => if s == "" then d else s

/-- The literal default of the `prevResponse` field, main.py line 406. -/
def defaultPrevResponse : String :=
  "[\x7b\"type\": \"Text\", \"displayText\": \" What was that?\", \"hyperlinks\": [], \"options\": [], \"dynamicText\": [\x7b\"type\": \"DynamicText\", \"textData\": [\x7b\"type\": \"TextOption\", \"displayText\": \"What was that?\"\x7d]\x7d]\x7d]"

/-- Embeds the `/message` handler `send_message` of main.py lines 319-420
as a state transformer: from the current `product_info` state, the
request, the fallback-file read result and the gateway outcome, produce
the response envelope and the new `product_info` state.  (`user_text =
payload.message.message or ""` is the identity on the required `str`
field, so the message is used as-is.) -/
def send_message (st : Option String) (inp : TurnInput) (fb : Option String)
    (gw : GatewayOutcome) : TurnResult × Option String :=
  ({ displayText := displayOf gw (augmentStep st inp.message fb).1
   , turnId := inp.turnId
   , membershipState := orDefault inp.membershipState ("No")
   , logInState := orDefault inp.logInState ("loggedOut")
   , referer := orDefault inp.referer ("")
   , botSource := orDefault inp.botSource ("dfcx")
   , prevUtterance := orDefault inp.prevUtterance ("")
   , requestedProductDataType := orDefault inp.requestedProductDataType ("")
   , existingUtterance := orDefault inp.existingUtterance ("")
   , intentName := orDefault inp.intentName ("Default Welcome Intent")
   , prevResponse := orDefault inp.prevResponse defaultPrevResponse
   , correlationId := inp.correlationId
   , conversationId := inp.conversationId
   , genAI := false },
   (augmentStep st inp.message fb).2)

/-- The text handed to the extractor by the `/product` handler, main.py
line 310: `response_body or payload_text`, where `response_body` is the
`responseBody` field of the JSON-parsed payload when that parse yields an
object with a string there (`none` otherwise). -/
def productSource (payloadText : String) (responseBody : Option String) : String :=
  match responseBody with
  | some rb => if rb == "" then payloadText else rb
  | none => payloadText

/-- Embeds the `/product` handler of main.py lines 266-317 as a state
transformer on `product_info`: the old state is discarded and replaced by
the comma-joined extraction result (line 315). -/
def product_hook (_st : Option String) (payloadText : String)
    (responseBody : Option String) : Option String :=
  some (String.intercalate (",")
    (extract_specification_groups_from_text (productSource payloadText responseBody)))

/-- An infix of `m` is an infix of `pre ++ m`. -/
lemma infix_append_left (pre : List Char) {l m : List Char} (h : l <:+: m) :
    l <:+: pre ++ m := by
  obtain ⟨s, u, rfl⟩ := h
  exact ⟨pre ++ s, u, by simp [List.append_assoc]⟩

/-- The user text is an infix of the augmented prompt text. -/
lemma infix_augmentWith (m pinfo : String) : m.data <:+: (augmentWith m pinfo).data :=
  ⟨("Question:\n").data, ((" \n\n Product Info:\n") ++ pinfo).data, by
    simp [augmentWith, String.data_append, List.append_assoc]⟩


/-- Whatever tier fires, the user text is an infix of the prompt passed
onward to the gateway. -/
lemma msg_infix_prompt (st : Option String) (msg : String) (fb : Option String) :
    msg.data <:+: ((augmentStep st msg fb).1).data := by
  unfold augmentStep
  by_cases h : truthyStr st = true
  · rw [if_pos h]
    exact infix_augmentWith msg _
  · rw [if_neg h]
    cases fb with
    | none => exact List.infix_refl _
    | some sample =>
      by_cases hg : (extract_specification_groups_from_text sample).isEmpty = true
      · show msg.data <:+:
          ((if (extract_specification_groups_from_text sample).isEmpty then (msg, st)
            else (augmentWith msg (String.intercalate (",")
                (extract_specification_groups_from_text sample)),
              some (String.intercalate (",")
                (extract_specification_groups_from_text sample)))).1).data
        rw [if_pos hg]
      · show msg.data <:+:
          ((if (extract_specification_groups_from_text sample).isEmpty then (msg, st)
            else (augmentWith msg (String.intercalate (",")
                (extract_specification_groups_from_text sample)),
              some (String.intercalate (",")
                (extract_specification_groups_from_text sample)))).1).data
        rw [if_neg hg]
        exact infix_augmentWith msg _

/-- Claim C1: on every gateway failure of the `/message` turn —
configuration missing, call raised, or empty reply — the handler still
returns a normal envelope whose `displayText` is the deterministic echo
string built from the (augmented) user text, which contains the original
user text; the two exception kinds (no attempt possible vs attempt
failed) produce byte-for-byte identical responses, differing only in
what `print(ex)` logs. -/
theorem turn_failure_echo (st : Option String) (inp : TurnInput) (fb : Option String) :
    send_message st inp fb GatewayOutcome.configMissing =
      send_message st inp fb GatewayOutcome.callRaised ∧
    (send_message st inp fb GatewayOutcome.configMissing).1.displayText =
      ("ECHO2 ") ++ (augmentStep st inp.message fb).1 ∧
    (send_message st inp fb (GatewayOutcome.ok (""))).1.displayText =
      ("ECHO1 ") ++ (augmentStep st inp.message fb).1 ∧
    inp.message.data <:+:
      ((send_message st inp fb GatewayOutcome.configMissing).1.displayText).data ∧
    inp.message.data <:+:
      ((send_message st inp fb (GatewayOutcome.ok (""))).1.displayText).data := by
  have hok : displayOf (GatewayOutcome.ok ("")) (augmentStep st inp.message fb).1 =
      ("ECHO1 ") ++ (augmentStep st inp.message fb).1 := by
    simp only [displayOf]
    rw [if_pos (show (("" : String) == "") = true from rfl)]
  refine ⟨rfl, rfl, hok, ?_, ?_⟩
  · show inp.message.data <:+:
      ((("ECHO2 ") ++ (augmentStep st inp.message fb).1)).data
    rw [String.data_append]
    exact infix_append_left _ (msg_infix_prompt st inp.message fb)
  · show inp.message.data <:+:
      (displayOf (GatewayOutcome.ok ("")) (augmentStep st inp.message fb).1).data
    rw [hok, String.data_append]
    exact infix_append_left _ (msg_infix_prompt st inp.message fb)

/-- Claim C5: with falsy product info and an unreadable fallback document
(or one yielding no groups), the prompt passed onward equals the raw user
text and the state is untouched; the augmentation is a total function, so
no input can make it raise. -/
theorem augment_no_context (st : Option String) (msg : String) (fb : Option String)
    (h1 : truthyStr st = false)
    (h2 : fb = none ∨ ∃ s, fb = some s ∧ extract_specification_groups_from_text s = []) :
    augmentStep st msg fb = (msg, st) := by
  unfold augmentStep
  rw [if_neg (by rw [h1]; simp)]
  rcases h2 with rfl | ⟨s, rfl, hs⟩
  · rfl
  · show (if (extract_specification_groups_from_text s).isEmpty then (msg, st)
        else (augmentWith msg (String.intercalate (",")
            (extract_specification_groups_from_text s)),
          some (String.intercalate (",")
            (extract_specification_groups_from_text s)))) = (msg, st)
    rw [if_pos (by rw [hs]; rfl)]

theorem augment_no_context_witness :
    truthyStr none = false ∧ augmentStep none ("hello") none = (("hello"), none) :=
  ⟨rfl, augment_no_context none ("hello") none rfl (Or.inl rfl)⟩

/-- Claim C6: the response copies `turnId`, `conversationId` and
`correlationId` verbatim from the inbound request, and fills each absent
optional metadata field with its fixed literal default. -/
theorem turn_passthrough_defaults (st : Option String) (inp : TurnInput)
    (fb : Option String) (gw : GatewayOutcome)
    (h1 : inp.logInState = none) (h2 : inp.intentName = none) :
    (send_message st inp fb gw).1.turnId = inp.turnId ∧
    (send_message st inp fb gw).1.conversationId = inp.conversationId ∧
    (send_message st inp fb gw).1.correlationId = inp.correlationId ∧
    (send_message st inp fb gw).1.logInState = ("loggedOut") ∧
    (send_message st inp fb gw).1.intentName = ("Default Welcome Intent") := by
  refine ⟨rfl, rfl, rfl, ?_, ?_⟩
  · show orDefault inp.logInState ("loggedOut") = ("loggedOut")
    rw [h1]
    rfl
  · show orDefault inp.intentName ("Default Welcome Intent") = ("Default Welcome Intent")
    rw [h2]
    rfl

/-- A concrete inbound message with all optional metadata absent. -/
def sampleInput : TurnInput :=
  { message := "What's the battery life?"
  , turnId := 7
  , correlationId := some ("corr-1")
  , conversationId := some ("conv-1")
  , membershipState := none
  , logInState := none
  , referer := none
  , botSource := none
  , prevUtterance := none
  , requestedProductDataType := none
  , existingUtterance := none
  , intentName := none
  , prevResponse := none }

theorem turn_passthrough_defaults_witness :
    (send_message none sampleInput none (GatewayOutcome.ok (""))).1.turnId = 7 ∧
    (send_message none sampleInput none (GatewayOutcome.ok (""))).1.conversationId =
      some ("conv-1") ∧
    (send_message none sampleInput none (GatewayOutcome.ok (""))).1.correlationId =
      some ("corr-1") ∧
    (send_message none sampleInput none (GatewayOutcome.ok (""))).1.logInState =
      ("loggedOut") ∧
    (send_message none sampleInput none (GatewayOutcome.ok (""))).1.intentName =
      ("Default Welcome Intent") :=
  turn_passthrough_defaults none sampleInput none (GatewayOutcome.ok ("")) rfl rfl

/-- Claim C7: when the bundled fallback document yields one or more
groups, the comma-joined result is cached in the `product_info` slot,
which is truthy from then on, so every subsequent augmentation call takes
the live-capture tier with the cached value — whatever the fallback
document argument — without re-running the extraction. -/
theorem fallback_result_cached (st : Option String) (msg : String) (s : String)
    (h1 : truthyStr st = false)
    (h2 : extract_specification_groups_from_text s ≠ []) :
    augmentStep st msg (some s) =
      (augmentWith msg (String.intercalate (",")
          (extract_specification_groups_from_text s)),
        some (String.intercalate (",")
          (extract_specification_groups_from_text s))) ∧
    truthyStr (some (String.intercalate (",")
      (extract_specification_groups_from_text s))) = true ∧
    ∀ (msg2 : String) (fb2 : Option String),
      augmentStep (some (String.intercalate (",")
          (extract_specification_groups_from_text s))) msg2 fb2 =
        (augmentWith msg2 (String.intercalate (",")
            (extract_specification_groups_from_text s)),
          some (String.intercalate (",")
            (extract_specification_groups_from_text s))) := by
  have hne : String.intercalate (",") (extract_specification_groups_from_text s) ≠ "" := by
    rcases hg : extract_specification_groups_from_text s with _ | ⟨g, gs⟩
    · exact absurd hg h2
    · apply intercalate_ne_empty
      intro hgempty
      have hh := extract_head s g (by rw [hg]; exact List.mem_cons_self _ _)
      rw [hgempty] at hh
      have hcon : (none : Option Char) = some '[' := hh
      cases hcon
  have htr : truthyStr (some (String.intercalate (",")
      (extract_specification_groups_from_text s))) = true := by
    unfold truthyStr
    simp [hne]
  refine ⟨?_, htr, ?_⟩
  · unfold augmentStep
    rw [if_neg (by rw [h1]; simp)]
    show (if (extract_specification_groups_from_text s).isEmpty then (msg, st)
        else (augmentWith msg (String.intercalate (",")
            (extract_specification_groups_from_text s)),
          some (String.intercalate (",")
            (extract_specification_groups_from_text s)))) = _
    rw [if_neg (by
      intro hcon
      exact h2 (List.isEmpty_iff.1 hcon))]
  · intro msg2 fb2
    unfold augmentStep
    rw [if_pos htr]
    rfl

/-- A sample document holding one specification-groups array. -/
def c7sample : String := "\"specificationGroups\":[\x7b\x7d]"

theorem fallback_result_cached_witness :
    augmentStep none ("hi") (some c7sample) =
      (augmentWith ("hi") (String.intercalate (",")
          (extract_specification_groups_from_text c7sample)),
        some (String.intercalate (",")
          (extract_specification_groups_from_text c7sample))) ∧
    truthyStr (some (String.intercalate (",")
      (extract_specification_groups_from_text c7sample))) = true ∧
    augmentStep (some (String.intercalate (",")
        (extract_specification_groups_from_text c7sample))) ("more") none =
      (augmentWith ("more") (String.intercalate (",")
          (extract_specification_groups_from_text c7sample)),
        some (String.intercalate (",")
          (extract_specification_groups_from_text c7sample))) :=
  ⟨(fallback_result_cached none ("hi") c7sample rfl (by decide)).1,
    (fallback_result_cached none ("hi") c7sample rfl (by decide)).2.1,
    (fallback_result_cached none ("hi") c7sample rfl (by decide)).2.2 ("more") none⟩

/-- A JSON object payload whose `responseBody` field is the empty string
but whose raw text contains a specification-groups array. -/
def c4payload : String :=
  "\x7b\"responseBody\":\"\",\"specificationGroups\":[\x7b\"a\":1\x7d]\x7d"

/-- Counterexample to claim C4 as stated: for a payload that parses as an
object containing the (empty-string) field `responseBody`, the hook does
not run the extractor over that embedded string — Python's
`response_body or payload_text` falls back to the raw payload text, and
the stored value is the group found there, not the empty result of
extracting from `""`. -/
theorem product_hook_empty_responseBody :
    product_hook none c4payload (some ("")) ≠
      some (String.intercalate (",")
        (extract_specification_groups_from_text (""))) := by
  decide

/-- Claim C4 (amended): the `/product` hook runs the extractor over the
payload's embedded `responseBody` string when the payload parses as an
object containing a non-empty one — otherwise over the raw payload text —
and replaces the single current-product-info value with the comma-joined
sequence of extracted array strings, regardless of the previous value
(last post wins). -/
theorem product_hook_replaces (st1 st2 : Option String) (payloadText : String)
    (responseBody : Option String) :
    product_hook st1 payloadText responseBody =
      product_hook st2 payloadText responseBody ∧
    product_hook st1 payloadText responseBody =
      some (String.intercalate (",")
        (extract_specification_groups_from_text
          (productSource payloadText responseBody))) ∧
    (∀ rb : String, rb ≠ "" → productSource payloadText (some rb) = rb) ∧
    productSource payloadText none = payloadText := by
  refine ⟨rfl, rfl, ?_, rfl⟩
  intro rb h
  show (if (rb == "") = true then payloadText else rb) = rb
  rw [if_neg (by simp [h])]

theorem product_hook_replaces_witness :
    product_hook none ("pt") (some ("rb")) =
      product_hook (some ("old")) ("pt") (some ("rb")) ∧
    productSource ("pt") (some ("rb")) = ("rb") :=
  ⟨(product_hook_replaces none (some ("old")) ("pt") (some ("rb"))).1,
    (product_hook_replaces none (some ("old")) ("pt") (some ("rb"))).2.2.1 ("rb")
      (by decide)⟩

/-- Claim C10: a posted payload from which zero groups are extracted
overwrites the `product_info` slot with the empty string, which is falsy,
so the next turn's augmentation behaves exactly as if nothing had been
ingested — it re-runs the fallback tier, and a successful fallback result
again overwrites the slot. -/
theorem empty_extraction_resets (st : Option String) (payloadText : String)
    (responseBody : Option String) (msg : String) (fb : Option String)
    (h : extract_specification_groups_from_text
      (productSource payloadText responseBody) = []) :
    product_hook st payloadText responseBody = some ("") ∧
    truthyStr (some ("")) = false ∧
    (augmentStep (some ("")) msg fb).1 = (augmentStep none msg fb).1 ∧
    truthyStr ((augmentStep (some ("")) msg fb).2) =
      truthyStr ((augmentStep none msg fb).2) := by
  refine ⟨?_, rfl, ?_, ?_⟩
  · unfold product_hook
    rw [h]
    rfl
  · unfold augmentStep
    rw [if_neg (show ¬ truthyStr (some ("")) = true by decide),
      if_neg (show ¬ truthyStr (none : Option String) = true by decide)]
    cases fb with
    | none => rfl
    | some sample =>
      show (if (extract_specification_groups_from_text sample).isEmpty
          then (msg, some ("")) else _).1 =
        (if (extract_specification_groups_from_text sample).isEmpty
          then (msg, none) else _).1
      by_cases hg : (extract_specification_groups_from_text sample).isEmpty = true
      · rw [if_pos hg, if_pos hg]
      · rw [if_neg hg, if_neg hg]
  · unfold augmentStep
    rw [if_neg (show ¬ truthyStr (some ("")) = true by decide),
      if_neg (show ¬ truthyStr (none : Option String) = true by decide)]
    cases fb with
    | none => rfl
    | some sample =>
      show truthyStr (if (extract_specification_groups_from_text sample).isEmpty
          then (msg, some ("")) else _).2 =
        truthyStr (if (extract_specification_groups_from_text sample).isEmpty
          then (msg, none) else _).2
      by_cases hg : (extract_specification_groups_from_text sample).isEmpty = true
      · rw [if_pos hg, if_pos hg]
        rfl
      · rw [if_neg hg, if_neg hg]

theorem empty_extraction_resets_witness :
    product_hook none ("no groups here") none = some ("") ∧
    truthyStr (some ("")) = false ∧
    (augmentStep (some ("")) ("m") none).1 = (augmentStep none ("m") none).1 ∧
    truthyStr ((augmentStep (some ("")) ("m") none).2) =
      truthyStr ((augmentStep none ("m") none).2) :=
  empty_extraction_resets none ("no groups here") none ("m") none (by decide)

/-- Modelled from the spec: the repository's only state is the single
`product_info` slot, so the CaptureRecord of spec section 3 (created by
the page-view/product ingestion path, which does not exist under
src/backend) is modelled from the spec's words: product identifier,
source URL, capture timestamp, optional raw page text. -/
structure CaptureRecord where
  productId : String
  url : String
  capturedAt : Nat
  rawText : Option String
deriving DecidableEq

/-- Modelled from the spec: the ProductCaptureStore of spec sections 3
and 4.2, an insertion-ordered mapping keyed by productId with at most one
record per key, modelled as an association list in insertion order. -/
abbrev ProductCaptureStore : Type := List (String × CaptureRecord)

/-- Modelled from the spec: `put` overwrites by key, keeping the original
insertion slot on overwrite (the observed policy of spec section 9), and
appends a fresh key at the end. -/
def ProductCaptureStore.put (st : ProductCaptureStore) (id : String)
    (r : CaptureRecord) : ProductCaptureStore :=
  if List.any st (fun kv => kv.1 == id) then
    List.map (fun kv => if kv.1 == id then (id, r) else kv) st
  else st ++ [(id, r)]

/-- Modelled from the spec: `get` returns the record stored for the key,
or a not-found signal (`none`), never a crash. -/
def ProductCaptureStore.get (st : ProductCaptureStore) (id : String) :
    Option CaptureRecord :=
  (List.find? (fun kv => kv.1 == id) st).map Prod.snd

/-- Reading a key straight after writing it returns the written record. -/
lemma store_get_put : ∀ (st : ProductCaptureStore) (id : String) (r : CaptureRecord),
    ProductCaptureStore.get (ProductCaptureStore.put st id r) id = some r := by
  intro st
  induction st with
  | nil =>
    intro id r
    simp [ProductCaptureStore.put, ProductCaptureStore.get, List.find?]
  | cons kv tl ih =>
    intro id r
    by_cases hk : (kv.1 == id) = true
    · unfold ProductCaptureStore.put ProductCaptureStore.get
      rw [if_pos (by simp [List.any_cons, hk])]
      simp only [List.map_cons, if_pos hk]
      simp [List.find?]
    · by_cases ha : (List.any tl (fun kv => kv.1 == id)) = true
      · unfold ProductCaptureStore.put ProductCaptureStore.get
        rw [if_pos (by simp [List.any_cons, ha])]
        simp only [List.map_cons, if_neg hk]
        have hk' : (kv.1 == id) = false := by simpa using hk
        simp only [List.find?, hk']
        have ihh := ih id r
        unfold ProductCaptureStore.put ProductCaptureStore.get at ihh
        rw [if_pos ha] at ihh
        exact ihh
      · unfold ProductCaptureStore.put ProductCaptureStore.get
        rw [if_neg (by simp [List.any_cons, hk, ha])]
        rw [List.cons_append]
        have hk' : (kv.1 == id) = false := by simpa using hk
        simp only [List.find?, hk']
        have ihh := ih id r
        unfold ProductCaptureStore.put ProductCaptureStore.get at ihh
        rw [if_neg ha] at ihh
        exact ihh

/-- Claim C9: two successive `put`s under the same key followed by a
`get` return the second record, not the first (overwrite by key,
last write wins). -/
theorem store_put_put_get (st : ProductCaptureStore) (id : String)
    (r1 r2 : CaptureRecord) (h : r1 ≠ r2) :
    ProductCaptureStore.get
      (ProductCaptureStore.put (ProductCaptureStore.put st id r1) id r2) id =
      some r2 ∧
    ProductCaptureStore.get
      (ProductCaptureStore.put (ProductCaptureStore.put st id r1) id r2) id ≠
      some r1 := by
  have hg := store_get_put (ProductCaptureStore.put st id r1) id r2
  refine ⟨hg, ?_⟩
  rw [hg]
  intro hcon
  injection hcon with hcon
  exact h hcon.symm

/-- Two distinct capture records for the same product identifier. -/
def sampleRecord1 : CaptureRecord :=
  { productId := "p1", url := "u1", capturedAt := 1, rawText := none }

/-- The overwriting record. -/
def sampleRecord2 : CaptureRecord :=
  { productId := "p1", url := "u2", capturedAt := 2, rawText := none }

theorem store_put_put_get_witness :
    ProductCaptureStore.get
      (ProductCaptureStore.put
        (ProductCaptureStore.put ([] : ProductCaptureStore) ("p1") sampleRecord1)
        ("p1") sampleRecord2) ("p1") = some sampleRecord2 ∧
    ProductCaptureStore.get
      (ProductCaptureStore.put
        (ProductCaptureStore.put ([] : ProductCaptureStore) ("p1") sampleRecord1)
        ("p1") sampleRecord2) ("p1") ≠ some sampleRecord1 :=
  store_put_put_get ([] : ProductCaptureStore) ("p1") sampleRecord1 sampleRecord2
    (by decide)
